import Mathlib

/-!
# Verification of the LSTV annotation tool's sync and upload scripts

Shallow embedding of `sync_firestore.py` (the Firestore/Storage
reconciliation engine) and `upload_dicoms.py` (the idempotent ingestion
pipeline).  External collaborators (the object store, the document catalog
and the DICOM header reader) are modelled as explicit data:

* a DICOM blob's parse result is an oracle function returning
  `Option DicomHdr` (`none` models `pydicom.dcmread` raising);
* the object store is the finite set of object paths that exist;
* the Firestore catalog is an association list `document key → document`,
  and Python `dict`s are association lists with insert-or-overwrite
  semantics (`dictInsert`), matching CPython's insertion-order dicts.

Machine floats (`SliceLocation`) only ever flow through unchanged or
default to `0.0`, so they are modelled as `Rat`; timestamps
(`SERVER_TIMESTAMP` / `datetime.utcnow()`) are environment inputs and are
left out of the modelled document bodies.
-/

namespace Lstv

/-- Parse result of a DICOM header: each tag may be absent
(`hasattr(dcm, ...)` false).  `none` at the oracle level models the whole
read raising. -/
structure DicomHdr where
  instanceNumber : Option Int
  sliceLocation : Option Rat
  seriesDescription : Option String
deriving DecidableEq

/-- Header oracle of the sync path: what
`pydicom.dcmread(blob bytes of dicoms/study/series/filename)` yields,
`none` when it raises. -/
abbrev MetaOracle := String → String → String → Option DicomHdr

/-- The record returned by both metadata readers:
`instance_number`, `slice_location`, `series_description`. -/
structure DcmMeta where
  instance_number : Int
  slice_location : Rat
  series_description : String
deriving DecidableEq

/-- `FirestoreStorageSync.download_dicom_metadata`: reads the blob's
header; on failure falls back to `{0, 0.0, ''}`; on success each missing
tag falls back individually (`0`, `0.0`, `''`). -/
def download_dicom_metadata (meta : MetaOracle) (study_id series_id filename : String) :
    DcmMeta :=
  match meta study_id series_id filename with
  | none => ⟨0, 0, ""⟩
  | some dcm =>
      ⟨dcm.instanceNumber.getD 0, dcm.sliceLocation.getD 0, dcm.seriesDescription.getD ""⟩

/-- Decimal value of a digit string, as Python's `int` computes it on a
string of digit characters (`'0'` has code point 48). -/
def digitsToNat (cs : List Char) : Nat :=
  cs.foldl (fun n c => n * 10 + (c.toNat - 48)) 0

/-- The sort key of line 126 of `sync_firestore.py`:
`int(''.join(filter(str.isdigit, x)) or '0')` — concatenate the digit
characters of the filename and parse; an empty digit string parses as 0
(`digitsToNat [] = 0`). -/
def digitKey (x : String) : Nat :=
  digitsToNat (x.data.filter Char.isDigit)

/-- `sorted(filenames, key=lambda x: int(...))`.  Python's `sorted` is a
stable ascending sort by the key, and a stable sort by a total preorder
is a unique function of its input, so the stable `List.insertionSort` is
extensionally the same function. -/
def sortFilenamesNumeric (filenames : List String) : List String :=
  filenames.insertionSort (fun a b => digitKey a ≤ digitKey b)

/-- Python's `s.split(sep)` for a single-character separator, on
character lists: always returns one (possibly empty) chunk more than the
number of separator occurrences. -/
def splitOnChar (c : Char) : List Char → List (List Char)
  | [] => [[]]
  | x :: xs =>
      let r := splitOnChar c xs
      if x == c then [] :: r
      else
        match r with
        | [] => [[x]]
        | h :: t => (x :: h) :: t

/-- Python's `s.split('/')` etc. at the string level. -/
def pySplit (s : String) (c : Char) : List String :=
  (splitOnChar c s.data).map String.mk

/-- Python's `s.endswith(t)`. -/
def strEndsWith (s t : String) : Bool :=
  t.data.isSuffixOf s.data

/-- One entry of a `files` list built by the sync path. -/
structure SFile where
  filename : String
  instance_number : Int
  slice_location : Rat
deriving DecidableEq, Inhabited

/-- One entry of the `series` list built by the sync path. -/
structure SSeries where
  series_id : String
  description : String
  slice_count : Nat
  files : List SFile
  storage_path : String
deriving DecidableEq, Inhabited

/-- A study document as written by `create_study_metadata`
(`upload_date` omitted, see the file header). -/
structure SyncDoc where
  study_id : String
  series : List SSeries
  total_series : Nat
  total_slices : Nat
  status : String
deriving DecidableEq, Inhabited

/-- The per-series body of `create_study_metadata`'s loop
(lines 122–147): sort the filenames numerically, read the first sorted
file for the description, build the file list.  `filenames_sorted[0]` on
an empty list raises `IndexError`, modelled by `none`. -/
def create_series_entry (meta : MetaOracle) (study_id series_id : String)
    (filenames : List String) : Option SSeries :=
  match sortFilenamesNumeric filenames with
  | [] => none
  | first :: rest =>
      let first_file_metadata := download_dicom_metadata meta study_id series_id first
      let file_list := (first :: rest).map fun filename =>
        let m := download_dicom_metadata meta study_id series_id filename
        SFile.mk filename m.instance_number m.slice_location
      some
        { series_id := series_id
          description := first_file_metadata.series_description
          slice_count := filenames.length
          files := file_list
          storage_path := "dicoms/" ++ study_id ++ "/" ++ series_id ++ "/" }

/-- The `for series_id, filenames in series_dict.items()` loop of
`create_study_metadata`: build one entry per series, propagating the
uncaught `IndexError` (`none`) of any series whose filename list is
empty. -/
def build_series_list (meta : MetaOracle) (study_id : String) :
    List (String × List String) → Option (List SSeries)
  | [] => some []
  | p :: rest =>
      match create_series_entry meta study_id p.1 p.2 with
      | none => none
      | some s =>
          match build_series_list meta study_id rest with
          | none => none
          | some sl => some (s :: sl)

/-- `FirestoreStorageSync.create_study_metadata` (lines 116–158).  The
study identifier reaches it as a string parsed from the blob path, so
`str(study_id)` is the identity here.  `none` models the uncaught
`IndexError` from a series whose filename list is empty. -/
def create_study_metadata (meta : MetaOracle) (study_id : String)
    (series_dict : List (String × List String)) : Option SyncDoc :=
  match build_series_list meta study_id series_dict with
  | none => none
  | some series_list =>
      some
        { study_id := study_id
          series := series_list
          total_series := series_list.length
          total_slices := (series_list.map (·.slice_count)).sum
          status := "ready" }

/-! ## Python dicts as association lists -/

/-- Python `d[k] = v`: overwrite in place if the key is present
(keeping its position, as CPython dicts do), else append. -/
def dictInsert {α : Type} (m : List (String × α)) (k : String) (v : α) :
    List (String × α) :=
  if m.any (fun p => p.1 == k) then
    m.map (fun p => if p.1 == k then (k, v) else p)
  else m ++ [(k, v)]

/-- Python `d.get(k)` / `d[k]`. -/
def dictLookup {α : Type} (m : List (String × α)) (k : String) : Option α :=
  (m.find? (fun p => p.1 == k)).map Prod.snd

/-! ## Storage Scanner (`get_storage_studies`, lines 33–66) -/

/-- One study's `series_id → [filename]` dict. -/
abbrev SeriesMap := List (String × List String)

/-- The nested `study_id → series_id → [filename]` dict. -/
abbrev StorageSnap := List (String × SeriesMap)

/-- The body of `get_storage_studies`' blob loop: split the blob name on
`/`; keep it only when it has exactly 4 segments and the last ends in
`.dcm`; group by study then series, appending the filename. -/
def scan_blob_step (studies : StorageSnap) (blobName : String) : StorageSnap :=
  match pySplit blobName '/' with
  | [_, study_id, series_id, filename] =>
      if strEndsWith filename ".dcm" then
        let series_dict := (dictLookup studies study_id).getD []
        let files := (dictLookup series_dict series_id).getD []
        dictInsert studies study_id
          (dictInsert series_dict series_id (files ++ [filename]))
      else studies
  | _ => studies

/-- `FirestoreStorageSync.get_storage_studies` (lines 33–66). -/
def get_storage_studies (blobs : List String) : StorageSnap :=
  blobs.foldl scan_blob_step []

/-! ## Catalog Scanner and the Firestore catalog -/

/-- The raw Firestore `studies` collection: document key → document.
Well-formed collections have pairwise distinct document keys. -/
abbrev Firestore := List (String × SyncDoc)

/-- One value of the `firestore_studies` dict:
`{'doc_id': doc.id, 'data': study_data}`. -/
structure FsEntry where
  doc_id : String
  data : SyncDoc
deriving DecidableEq, Inhabited

/-- `FirestoreStorageSync.get_firestore_studies` (lines 68–88): key each
document by its embedded `study_id` field (later duplicates overwrite
earlier ones, as Python dict assignment does). -/
def get_firestore_studies (fs : Firestore) : List (String × FsEntry) :=
  fs.foldl (fun acc kd => dictInsert acc kd.2.study_id ⟨kd.1, kd.2⟩) []

/-! ## Reconciliation analysis (lines 175–182) -/

/-- Key set of a storage snapshot (`set(storage_studies.keys())`). -/
def snapKeys (s : StorageSnap) : Finset String := (s.map Prod.fst).toFinset

/-- Key set of the catalog snapshot (`set(firestore_studies.keys())`). -/
def fsSnapKeys (c : List (String × FsEntry)) : Finset String := (c.map Prod.fst).toFinset

/-- Line 176: studies in Firestore but not in Storage. -/
def orphaned_studies (storage_keys firestore_keys : Finset String) : Finset String :=
  firestore_keys \ storage_keys

/-- Line 179: studies in Storage but not in Firestore. -/
def missing_studies (storage_keys firestore_keys : Finset String) : Finset String :=
  storage_keys \ firestore_keys

/-- Line 182: studies in both. -/
def existing_studies (storage_keys firestore_keys : Finset String) : Finset String :=
  storage_keys ∩ firestore_keys

/-! ## Plan application (lines 220–245) -/

/-- `db.collection('studies').document(doc_id).delete()`. -/
def fs_delete (fs : Firestore) (doc_id : String) : Firestore :=
  fs.filter (fun p => !(p.1 == doc_id))

/-- `db.collection('studies').document(k).set(metadata)`: full overwrite,
creating the document if absent. -/
def fs_set (fs : Firestore) (doc_id : String) (d : SyncDoc) : Firestore :=
  dictInsert fs doc_id d

/-- The create/update loops (lines 229–245): for each study id, build the
metadata from that study's storage series dict and `set` it at document
key `str(study_id)`.  A metadata build that raises aborts the run
(`none`). -/
def apply_creates (meta : MetaOracle) (storage_studies : StorageSnap) :
    List String → Firestore → Option Firestore
  | [], fs => some fs
  | study_id :: rest, fs =>
      match create_study_metadata meta study_id
          ((dictLookup storage_studies study_id).getD []) with
      | none => none
      | some metadata =>
          apply_creates meta storage_studies rest (fs_set fs study_id metadata)

/-- The orphan-delete loop (lines 220–227): delete each orphan at its
stored `doc_id`. -/
def orphan_delete_fold (firestore_studies : List (String × FsEntry))
    (ids : List String) (fs : Firestore) : Firestore :=
  ids.foldl
    (fun acc study_id =>
      fs_delete acc ((dictLookup firestore_studies study_id).getD default).doc_id) fs

/-- The apply branch of `FirestoreStorageSync.sync` (lines 220–245):
delete each orphan at its stored `doc_id`, then create each missing study
and update each existing study at document key `str(study_id)`.  The
Python `for study_id in <set>` loops are modelled by iterating the
corresponding key lists (set iteration order is irrelevant to every
property proved below). -/
def apply_sync (meta : MetaOracle) (storage_studies : StorageSnap) (fs : Firestore) :
    Option Firestore :=
  let firestore_studies := get_firestore_studies fs
  let fsk := firestore_studies.map Prod.fst
  let stk := storage_studies.map Prod.fst
  let fs1 := orphan_delete_fold firestore_studies
    (fsk.filter (fun k => !(stk.contains k))) fs
  (apply_creates meta storage_studies (stk.filter (fun k => !(fsk.contains k))) fs1).bind
    (apply_creates meta storage_studies (stk.filter (fun k => fsk.contains k)))

/-- Key set of the raw catalog (its document keys). -/
def fsKeys (fs : Firestore) : Finset String := (fs.map Prod.fst).toFinset

/-- The per-category counts printed by both the dry-run summary and the
analysis section. -/
structure SyncSummary where
  orphaned : Nat
  missing : Nat
  existing : Nat
deriving DecidableEq

/-- `FirestoreStorageSync.sync` (lines 160–255): scan both sides,
classify, and either stop after printing the summary (`dry_run`) or apply
the plan.  The first component is the resulting catalog (`none` = the run
raised). -/
def sync (meta : MetaOracle) (dry_run : Bool) (storage_studies : StorageSnap)
    (fs : Firestore) : Option Firestore × SyncSummary :=
  let firestore_studies := get_firestore_studies fs
  let sk := snapKeys storage_studies
  let fk := fsSnapKeys firestore_studies
  let summary : SyncSummary :=
    ⟨(orphaned_studies sk fk).card, (missing_studies sk fk).card,
      (existing_studies sk fk).card⟩
  if dry_run then (some fs, summary)
  else (apply_sync meta storage_studies fs, summary)

/-! ## Ingestion pipeline (`upload_dicoms.py`)

The local filesystem is modelled by oracles keyed by the local path
string; the object store by the `Finset String` of object paths that
exist.  Study and series directory names are the decimal rendering of
their numeric ids (`int(study_dir.name)` / `int(series_dir.name)`). -/

/-- Header oracle of the ingestion path: what `pydicom.dcmread(path)`
yields for a local file, `none` when it raises. -/
abbrev LocalMetaOracle := String → Option DicomHdr

/-- `Path.stat().st_size` for a local file. -/
abbrev SizeOracle := String → Nat

/-- `DicomUploader.get_dicom_metadata` (lines 40–55): same shape as the
sync path's reader but with fallback description `'Unknown'` (both when
the read raises and when the tag is absent). -/
def get_dicom_metadata (meta : LocalMetaOracle) (dcm_path : String) : DcmMeta :=
  match meta dcm_path with
  | none => ⟨0, 0, "Unknown"⟩
  | some dcm =>
      ⟨dcm.instanceNumber.getD 0, dcm.sliceLocation.getD 0,
        dcm.seriesDescription.getD "Unknown"⟩

/-- `DicomUploader.upload_dicom_file` (lines 57–72): if an object already
exists at `storage_path` return `(store, false)` ("Already exists"),
otherwise upload it and return `(store + path, true)` ("Uploaded"). -/
def upload_dicom_file (store : Finset String) (storage_path : String) :
    Finset String × Bool :=
  if storage_path ∈ store then (store, false)
  else (insert storage_path store, true)

/-- One entry of a `file_list` built by the ingestion path. -/
structure UFile where
  filename : String
  storage_path : String
  instance_number : Int
  slice_location : Rat
  file_size : Nat
deriving DecidableEq, Inhabited

/-- One entry of the `series` list built by the ingestion path. -/
structure USeries where
  series_id : Nat
  description : String
  slice_count : Nat
  files : List UFile
  storage_path : String
  uploaded_count : Nat
  skipped_count : Nat
deriving DecidableEq, Inhabited

/-- A study document as written by `upload_study`
(`upload_date` omitted, see the file header). -/
structure UploadDoc where
  study_id : Nat
  series : List USeries
  total_series : Nat
  total_slices : Nat
  status : String
deriving DecidableEq, Inhabited

/-- The destination object path of one file
(`f"dicoms/{study_id}/{series_id}/{dcm_file.name}"`). -/
def storagePathOf (study_id series_id : Nat) (filename : String) : String :=
  "dicoms/" ++ toString study_id ++ "/" ++ toString series_id ++ "/" ++ filename

/-- State accumulated by `upload_series`'s file loop. -/
structure UploadLoopState where
  store : Finset String
  uploaded_count : Nat
  skipped_count : Nat
  file_list : List UFile
deriving DecidableEq

/-- The `for idx, dcm_file in enumerate(dcm_files, 1)` loop of
`upload_series` (lines 87–113): upload (or skip) each file, read its
header, and append its `file_list` entry. -/
def upload_series_loop (meta : LocalMetaOracle) (size : SizeOracle)
    (study_id series_id : Nat) (series_dir : String) (store : Finset String) :
    List String → UploadLoopState
  | [] => ⟨store, 0, 0, []⟩
  | dcm_file :: rest =>
      let storage_path := storagePathOf study_id series_id dcm_file
      let up := upload_dicom_file store storage_path
      let m := get_dicom_metadata meta (series_dir ++ "/" ++ dcm_file)
      let entry : UFile :=
        ⟨dcm_file, storage_path, m.instance_number, m.slice_location,
          size (series_dir ++ "/" ++ dcm_file)⟩
      let tail := upload_series_loop meta size study_id series_id series_dir up.1 rest
      ⟨tail.store,
        (if up.2 then 1 else 0) + tail.uploaded_count,
        (if up.2 then 0 else 1) + tail.skipped_count,
        entry :: tail.file_list⟩

/-- `sorted(series_dir.glob('*.dcm'))`: the series directory's `.dcm`
entries in lexicographic order (Python sorts the paths, which share the
directory part, so this is filename order). -/
def dcmFilesOf (entries : List String) : List String :=
  (entries.filter (fun n => strEndsWith n ".dcm")).insertionSort (fun a b => a ≤ b)

/-- `DicomUploader.upload_series` (lines 74–128): glob the `.dcm` files
of the series directory in sorted (lexicographic) order; return `none`
when there are none; otherwise upload/skip each file and assemble the
series record, reading the description from the first sorted file. -/
def upload_series (meta : LocalMetaOracle) (size : SizeOracle) (store : Finset String)
    (study_id series_id : Nat) (series_dir : String) (entries : List String) :
    Option USeries × Finset String :=
  match dcmFilesOf entries with
  | [] => (none, store)
  | first :: rest =>
      let st := upload_series_loop meta size study_id series_id series_dir store
        (first :: rest)
      let first_dcm_metadata := get_dicom_metadata meta (series_dir ++ "/" ++ first)
      (some
        { series_id := series_id
          description := first_dcm_metadata.series_description
          slice_count := (first :: rest).length
          files := st.file_list
          storage_path := "dicoms/" ++ toString study_id ++ "/" ++ toString series_id ++ "/"
          uploaded_count := st.uploaded_count
          skipped_count := st.skipped_count }, st.store)

/-- The body of `upload_study`'s series loop: upload one series
directory and append its record when it produced one. -/
def upload_study_step (meta : LocalMetaOracle) (size : SizeOracle) (root : String)
    (study_id : Nat) (acc : List USeries × Finset String) (sd : Nat × List String) :
    List USeries × Finset String :=
  match upload_series meta size acc.2 study_id sd.1
      (root ++ "/" ++ toString study_id ++ "/" ++ toString sd.1) sd.2 with
  | (some series_info, store2) => (acc.1 ++ [series_info], store2)
  | (none, store2) => (acc.1, store2)

/-- `DicomUploader.upload_study` (lines 130–173): iterate the study's
series directories in sorted order (directory names are the decimal ids),
skip series with no `.dcm` files, and assemble the study document, which
the Python code then writes to Firestore at key `str(study_id)`.  Returns
`none` when the study has no series directories at all. -/
def upload_study (meta : LocalMetaOracle) (size : SizeOracle) (store : Finset String)
    (root : String) (study_id : Nat) (series_dirs : List (Nat × List String)) :
    Option UploadDoc × Finset String :=
  if series_dirs.isEmpty then (none, store)
  else
    let sorted_dirs := series_dirs.insertionSort (fun a b => toString a.1 ≤ toString b.1)
    let r := sorted_dirs.foldl (upload_study_step meta size root study_id)
      (([] : List USeries), store)
    let series_list := r.1
    (some
      { study_id := study_id
        series := series_list
        total_series := series_list.length
        total_slices := (series_list.map (·.slice_count)).sum
        status := "ready" }, r.2)

/-! ## Document bodies as Python dicts

Firestore receives plain Python dicts; to compare a document built by the
sync path with one built by the ingestion path (they have different field
sets and even different types for `study_id`), both are rendered into a
small JSON-like value type, with fields in the dicts' insertion order.
The `upload_date` field is excluded on both sides: it is a timestamp
taken from the environment (`SERVER_TIMESTAMP` vs `datetime.utcnow()`),
so the comparison below is already as favourable as possible to the
claim that the two paths build the same body. -/

/-- A Python value as stored in a Firestore document. -/
inductive JVal where
  | jstr : String → JVal
  | jint : Int → JVal
  | jnum : Rat → JVal
  | jarr : List JVal → JVal
  | jobj : List (String × JVal) → JVal

/-- The dict appended to `file_list` at lines 135–139 of
`sync_firestore.py`. -/
def fileJsonSync (f : SFile) : JVal :=
  .jobj
    [("filename", .jstr f.filename),
     ("instance_number", .jint f.instance_number),
     ("slice_location", .jnum f.slice_location)]

/-- The dict appended to `series_list` at lines 141–147 of
`sync_firestore.py`. -/
def seriesJsonSync (s : SSeries) : JVal :=
  .jobj
    [("series_id", .jstr s.series_id),
     ("description", .jstr s.description),
     ("slice_count", .jint s.slice_count),
     ("files", .jarr (s.files.map fileJsonSync)),
     ("storage_path", .jstr s.storage_path)]

/-- The dict returned at lines 151–158 of `sync_firestore.py`
(without `upload_date`). -/
def docJsonSync (d : SyncDoc) : JVal :=
  .jobj
    [("study_id", .jstr d.study_id),
     ("series", .jarr (d.series.map seriesJsonSync)),
     ("total_series", .jint d.total_series),
     ("total_slices", .jint d.total_slices),
     ("status", .jstr d.status)]

/-- The dict appended to `file_list` at lines 103–109 of
`upload_dicoms.py`. -/
def fileJsonUpload (f : UFile) : JVal :=
  .jobj
    [("filename", .jstr f.filename),
     ("storage_path", .jstr f.storage_path),
     ("instance_number", .jint f.instance_number),
     ("slice_location", .jnum f.slice_location),
     ("file_size", .jint f.file_size)]

/-- The dict returned at lines 120–128 of `upload_dicoms.py`
(`series_id` is the raw Python int there). -/
def seriesJsonUpload (s : USeries) : JVal :=
  .jobj
    [("series_id", .jint s.series_id),
     ("description", .jstr s.description),
     ("slice_count", .jint s.slice_count),
     ("files", .jarr (s.files.map fileJsonUpload)),
     ("storage_path", .jstr s.storage_path),
     ("uploaded_count", .jint s.uploaded_count),
     ("skipped_count", .jint s.skipped_count)]

/-- The dict built at lines 158–165 of `upload_dicoms.py` (without
`upload_date`; `study_id` is the raw Python int). -/
def docJsonUpload (d : UploadDoc) : JVal :=
  .jobj
    [("study_id", .jint d.study_id),
     ("series", .jarr (d.series.map seriesJsonUpload)),
     ("total_series", .jint d.total_series),
     ("total_slices", .jint d.total_slices),
     ("status", .jstr d.status)]

instance : IsTotal String (fun a b => digitKey a ≤ digitKey b) :=
  ⟨fun x y => Nat.le_total (digitKey x) (digitKey y)⟩

instance : IsTrans String (fun a b => digitKey a ≤ digitKey b) :=
  ⟨fun _ _ _ h1 h2 => Nat.le_trans h1 h2⟩

/-- The invariant maintained by the scanner's blob loop: every study has
at least one series, every series a non-empty `.dcm` file list, and every
filename originates from a 4-segment blob path among the blobs seen so
far. -/
def ScanInv (bs : List String) (studies : StorageSnap) : Prop :=
  ∀ p ∈ studies, p.2 ≠ [] ∧
    ∀ q ∈ p.2, q.2 ≠ [] ∧
      ∀ fn ∈ q.2, strEndsWith fn ".dcm" = true ∧
        ∃ b ∈ bs, ∃ root, pySplit b '/' = [root, p.1, q.1, fn]

/-! ## Basic lemmas about the dict model -/

theorem dictInsert_ne_nil {α : Type} (m : List (String × α)) (k : String) (v : α) :
    dictInsert m k v ≠ [] := by
  unfold dictInsert
  split
  · rename_i h
    cases m with
    | nil => simp at h
    | cons a l => simp
  · simp

theorem mem_dictInsert {α : Type} {m : List (String × α)} {k : String} {v : α}
    {p : String × α} (h : p ∈ dictInsert m k v) : p = (k, v) ∨ (p ∈ m ∧ p.1 ≠ k) := by
  unfold dictInsert at h
  split at h
  · rcases List.mem_map.mp h with ⟨q, hq, hqe⟩
    by_cases hk : q.1 == k
    · left
      rw [if_pos hk] at hqe
      exact hqe.symm
    · right
      rw [if_neg hk] at hqe
      subst hqe
      exact ⟨hq, by simpa using hk⟩
  · rcases List.mem_append.mp h with h' | h'
    · right
      rename_i hall
      refine ⟨h', ?_⟩
      intro hk
      exact hall (List.any_eq_true.mpr ⟨p, h', by simpa using hk⟩)
    · left
      simpa using h'

theorem dictLookup_mem {α : Type} {m : List (String × α)} {k : String} {v : α}
    (h : dictLookup m k = some v) : (k, v) ∈ m := by
  unfold dictLookup at h
  rcases Option.map_eq_some'.mp h with ⟨q, hq, hv⟩
  have hk := List.find?_some hq
  have hm := List.mem_of_find?_eq_some hq
  have hqe : q = (k, v) := by
    obtain ⟨q1, q2⟩ := q
    simp only [beq_iff_eq] at hk
    simp_all
  rwa [hqe] at hm

theorem dictInsert_of_not_mem {α : Type} {m : List (String × α)} {k : String} (v : α)
    (h : ∀ p ∈ m, p.1 ≠ k) : dictInsert m k v = m ++ [(k, v)] := by
  unfold dictInsert
  rw [if_neg]
  intro hc
  rcases List.any_eq_true.mp hc with ⟨p, hp, hpk⟩
  exact h p hp (by simpa using hpk)

theorem keys_dictInsert {α : Type} (m : List (String × α)) (k : String) (v : α) :
    ((dictInsert m k v).map Prod.fst).toFinset = insert k (m.map Prod.fst).toFinset := by
  unfold dictInsert
  split
  · rename_i h
    simp only [List.any_eq_true, beq_iff_eq] at h
    obtain ⟨q, hq, hqk⟩ := h
    ext x
    simp only [List.map_map, List.mem_toFinset, List.mem_map, Finset.mem_insert,
      Function.comp_apply]
    constructor
    · rintro ⟨a, ha, hax⟩
      by_cases hak : (a.1 == k) = true
      · rw [if_pos hak] at hax
        exact Or.inl hax.symm
      · rw [if_neg hak] at hax
        exact Or.inr ⟨a, ha, hax⟩
    · rintro (rfl | ⟨a, ha, hax⟩)
      · exact ⟨q, hq, by rw [if_pos (beq_iff_eq.mpr hqk)]⟩
      · by_cases hak : (a.1 == k) = true
        · refine ⟨a, ha, ?_⟩
          rw [if_pos hak, ← hax]
          exact (beq_iff_eq.mp hak).symm
        · exact ⟨a, ha, by rw [if_neg hak]; exact hax⟩
  · ext x
    simp only [List.map_append, List.toFinset_append, List.map_cons, List.map_nil,
      Finset.mem_union, List.mem_toFinset, Finset.mem_insert, List.toFinset_cons,
      List.toFinset_nil, insert_emptyc_eq, Finset.mem_singleton]
    tauto

/-! ## C1: the reconciliation partition -/

/-- C1: for every StorageSnapshot and CatalogSnapshot, the orphaned /
missing / existing classification of lines 176–182 of
`sync_firestore.py` covers `keys(S) ∪ keys(C)` and the three sets are
pairwise disjoint. -/
theorem reconciliation_partition (storage_studies : StorageSnap)
    (firestore_studies : List (String × FsEntry)) :
    orphaned_studies (snapKeys storage_studies) (fsSnapKeys firestore_studies) ∪
        missing_studies (snapKeys storage_studies) (fsSnapKeys firestore_studies) ∪
        existing_studies (snapKeys storage_studies) (fsSnapKeys firestore_studies) =
      snapKeys storage_studies ∪ fsSnapKeys firestore_studies ∧
    Disjoint (orphaned_studies (snapKeys storage_studies) (fsSnapKeys firestore_studies))
      (missing_studies (snapKeys storage_studies) (fsSnapKeys firestore_studies)) ∧
    Disjoint (orphaned_studies (snapKeys storage_studies) (fsSnapKeys firestore_studies))
      (existing_studies (snapKeys storage_studies) (fsSnapKeys firestore_studies)) ∧
    Disjoint (missing_studies (snapKeys storage_studies) (fsSnapKeys firestore_studies))
      (existing_studies (snapKeys storage_studies) (fsSnapKeys firestore_studies)) := by
  refine ⟨?_, ?_, ?_, ?_⟩
  · ext x
    simp only [orphaned_studies, missing_studies, existing_studies, Finset.mem_union,
      Finset.mem_sdiff, Finset.mem_inter]
    tauto
  all_goals
    rw [Finset.disjoint_left]
    intro a ha hb
    simp only [orphaned_studies, missing_studies, existing_studies, Finset.mem_sdiff,
      Finset.mem_inter] at ha hb
    tauto

/-! ## C5: dry-run performs no catalog mutation -/

/-- C5: `sync` with `dry_run=True` leaves the catalog untouched (every
document key and body unchanged) and only produces the per-category
counts. -/
theorem sync_dry_run_no_mutation (meta : MetaOracle) (storage_studies : StorageSnap)
    (fs : Firestore) :
    (sync meta true storage_studies fs).1 = some fs ∧
    (sync meta true storage_studies fs).2 =
      ⟨(orphaned_studies (snapKeys storage_studies)
          (fsSnapKeys (get_firestore_studies fs))).card,
        (missing_studies (snapKeys storage_studies)
          (fsSnapKeys (get_firestore_studies fs))).card,
        (existing_studies (snapKeys storage_studies)
          (fsSnapKeys (get_firestore_studies fs))).card⟩ :=
  ⟨rfl, rfl⟩

/-! ## Metadata Builder lemmas -/

theorem sortFilenamesNumeric_perm (l : List String) :
    List.Perm (sortFilenamesNumeric l) l :=
  List.perm_insertionSort _ l

theorem sortFilenamesNumeric_eq_nil_iff {l : List String} :
    sortFilenamesNumeric l = [] ↔ l = [] := by
  constructor
  · intro h
    have hp := sortFilenamesNumeric_perm l
    rw [h] at hp
    exact hp.nil_eq.symm
  · rintro rfl
    rfl

theorem build_series_list_isSome (meta : MetaOracle) (study_id : String)
    (l : List (String × List String)) :
    (build_series_list meta study_id l).isSome = true ↔
      ∀ p ∈ l, (create_series_entry meta study_id p.1 p.2).isSome = true := by
  induction l with
  | nil => simp [build_series_list]
  | cons a t ih =>
    rw [build_series_list]
    cases hfa : create_series_entry meta study_id a.1 a.2 with
    | none => simp [hfa]
    | some s =>
      cases hmt : build_series_list meta study_id t with
      | none => simp_all
      | some sl => simp_all

theorem build_series_list_forall₂ {meta : MetaOracle} {study_id : String}
    {l : List (String × List String)} {sl : List SSeries}
    (h : build_series_list meta study_id l = some sl) :
    List.Forall₂ (fun p s => create_series_entry meta study_id p.1 p.2 = some s) l sl := by
  induction l generalizing sl with
  | nil =>
    rw [build_series_list] at h
    simp only [Option.some.injEq] at h
    rw [← h]
    exact List.Forall₂.nil
  | cons a t ih =>
    rw [build_series_list] at h
    cases hfa : create_series_entry meta study_id a.1 a.2 with
    | none => rw [hfa] at h; exact Option.noConfusion h
    | some s =>
      rw [hfa] at h
      cases hmt : build_series_list meta study_id t with
      | none => rw [hmt] at h; exact Option.noConfusion h
      | some bs =>
        rw [hmt] at h
        simp only [Option.some.injEq] at h
        rw [← h]
        exact List.Forall₂.cons hfa (ih hmt)

theorem forall₂_exists_right {α β : Type} {R : α → β → Prop} {l : List α} {l' : List β}
    (h : List.Forall₂ R l l') {a : α} (ha : a ∈ l) : ∃ b ∈ l', R a b := by
  induction h with
  | nil => simp at ha
  | cons hr ht ih =>
    rcases List.mem_cons.mp ha with rfl | ha'
    · exact ⟨_, List.mem_cons_self _ _, hr⟩
    · rcases ih ha' with ⟨b, hb, hrb⟩
      exact ⟨b, List.mem_cons_of_mem _ hb, hrb⟩

theorem create_series_entry_isSome (meta : MetaOracle) (study_id series_id : String)
    (filenames : List String) :
    (create_series_entry meta study_id series_id filenames).isSome = true ↔
      filenames ≠ [] := by
  unfold create_series_entry
  cases h : sortFilenamesNumeric filenames with
  | nil =>
    have h0 : filenames = [] := sortFilenamesNumeric_eq_nil_iff.mp h
    simp [h0]
  | cons first rest =>
    have h0 : filenames ≠ [] := by
      intro hc
      rw [sortFilenamesNumeric_eq_nil_iff.mpr hc] at h
      exact List.noConfusion h
    simp [h0]

theorem create_study_metadata_isSome (meta : MetaOracle) (study_id : String)
    (series_dict : List (String × List String)) :
    (create_study_metadata meta study_id series_dict).isSome = true ↔
      ∀ p ∈ series_dict, p.2 ≠ [] := by
  unfold create_study_metadata
  cases h : build_series_list meta study_id series_dict with
  | none =>
    simp only [Option.isSome_none, Bool.false_eq_true, false_iff]
    intro hall
    have hs : (build_series_list meta study_id series_dict).isSome = true :=
      (build_series_list_isSome _ _ _).mpr fun p hp =>
        (create_series_entry_isSome meta study_id p.1 p.2).mpr (hall p hp)
    rw [h] at hs
    exact Bool.noConfusion hs
  | some sl =>
    simp only [Option.isSome_some, true_iff]
    intro p hp
    exact (create_series_entry_isSome meta study_id p.1 p.2).mp
      ((build_series_list_isSome _ _ _).mp (by rw [h]; rfl) p hp)

/-! ## C4: when the Metadata Builder raises -/

/-- C4 counterexample: the claim says the builder raises exactly on an
empty series map, but on the empty series map `create_study_metadata`
does not raise — it returns a zero-series document (and, conversely, a
non-empty map containing a series with an empty filename list does
raise). -/
theorem empty_series_map_builds_cex :
    create_study_metadata (fun _ _ _ => none) "7" [] =
      some ⟨"7", [], 0, 0, "ready"⟩ ∧
    create_study_metadata (fun _ _ _ => none) "7" [("1", [])] = none := by
  constructor <;> rfl

/-- C4 (amended): the builder never raises because of a malformed file
(the header oracle does not appear in the condition at all); it raises
exactly when some series in the map has an empty filename list.  In
particular an empty series map yields a (zero-series) document rather
than raising. -/
theorem create_study_metadata_raises_iff (meta : MetaOracle) (study_id : String)
    (series_dict : List (String × List String)) :
    create_study_metadata meta study_id series_dict = none ↔
      ∃ p ∈ series_dict, p.2 = [] := by
  rw [← Option.not_isSome_iff_eq_none]
  rw [create_study_metadata_isSome meta study_id series_dict]
  push_neg
  rfl

/-! ## C6: numeric filename ordering -/

/-- C6: the Metadata Builder orders a series' files by the integer formed
by concatenating the digit characters of each filename: the built file
list is exactly the input sorted by `digitKey`, the sorted list is an
ordered permutation of the input, a digit-free filename gets key 0, and
on `["img3.dcm","img10.dcm","img1.dcm"]` the order is img1, img3, img10
(numeric, not lexicographic). -/
theorem numeric_filename_ordering :
    (∀ (meta : MetaOracle) (study_id series_id : String) (filenames : List String) s,
        create_series_entry meta study_id series_id filenames = some s →
          s.files.map (·.filename) = sortFilenamesNumeric filenames) ∧
    (∀ filenames : List String,
        (sortFilenamesNumeric filenames).Pairwise (fun a b => digitKey a ≤ digitKey b) ∧
          List.Perm (sortFilenamesNumeric filenames) filenames) ∧
    (∀ x : String, (∀ c ∈ x.data, c.isDigit = false) → digitKey x = 0) ∧
    sortFilenamesNumeric ["img3.dcm", "img10.dcm", "img1.dcm"] =
      ["img1.dcm", "img3.dcm", "img10.dcm"] := by
  refine ⟨fun meta study_id series_id filenames s hs => ?_,
    fun filenames => ⟨?_, sortFilenamesNumeric_perm filenames⟩, fun x hx => ?_, by decide⟩
  · unfold create_series_entry at hs
    cases h : sortFilenamesNumeric filenames with
    | nil => rw [h] at hs; exact Option.noConfusion hs
    | cons first rest =>
      rw [h] at hs
      simp only [Option.some.injEq] at hs
      subst hs
      rw [List.map_map]
      exact List.map_id'' (fun x => rfl) _
  · exact List.sorted_insertionSort _ filenames
  · unfold digitKey
    rw [List.filter_eq_nil_iff.mpr]
    · rfl
    · intro c hc
      simp [hx c hc]

/-- Witness for C6 at the concrete three-filename series and a digit-free
filename. -/
theorem numeric_filename_ordering_witness :
    ((create_series_entry (fun _ _ _ => none) "1" "2"
        ["img3.dcm", "img10.dcm", "img1.dcm"]).getD default).files.map (·.filename) =
      sortFilenamesNumeric ["img3.dcm", "img10.dcm", "img1.dcm"] ∧
    digitKey "img.dcm" = 0 :=
  ⟨numeric_filename_ordering.1 (fun _ _ _ => none) "1" "2"
      ["img3.dcm", "img10.dcm", "img1.dcm"] _ rfl,
    numeric_filename_ordering.2.2.1 "img.dcm" (by decide)⟩

/-! ## C7: fallback on unreadable headers -/

theorem create_series_entry_mem_fallback {meta : MetaOracle} {study_id series_id : String}
    {filenames : List String} {s : SSeries} {f : String}
    (hs : create_series_entry meta study_id series_id filenames = some s)
    (hf : f ∈ filenames) (hbad : meta study_id series_id f = none) :
    s.series_id = series_id ∧ (⟨f, 0, 0⟩ : SFile) ∈ s.files := by
  unfold create_series_entry at hs
  cases h : sortFilenamesNumeric filenames with
  | nil => rw [h] at hs; exact Option.noConfusion hs
  | cons first rest =>
    rw [h] at hs
    simp only [Option.some.injEq] at hs
    subst hs
    refine ⟨rfl, ?_⟩
    have hf' : f ∈ first :: rest := by
      rw [← h]
      exact ((sortFilenamesNumeric_perm filenames).mem_iff).mpr hf
    refine List.mem_map.mpr ⟨f, hf', ?_⟩
    simp [download_dicom_metadata, hbad]

/-- C7: a file whose bytes fail to parse still appears in its series'
file list with `instance_number = 0` and `slice_location = 0.0`, and the
parse failure never propagates: whether the whole build raises does not
depend on the header oracle at all. -/
theorem bad_header_fallback (meta meta' : MetaOracle) (study_id : String)
    (series_dict : List (String × List String)) (series_id : String)
    (filenames : List String) (f : String)
    (hmem : (series_id, filenames) ∈ series_dict) (hf : f ∈ filenames)
    (hbad : meta study_id series_id f = none) :
    (∀ d, create_study_metadata meta study_id series_dict = some d →
        ∃ s ∈ d.series, s.series_id = series_id ∧ (⟨f, 0, 0⟩ : SFile) ∈ s.files) ∧
    (create_study_metadata meta study_id series_dict).isSome =
      (create_study_metadata meta' study_id series_dict).isSome := by
  constructor
  · intro d hd
    unfold create_study_metadata at hd
    cases hm : build_series_list meta study_id series_dict with
    | none => rw [hm] at hd; exact Option.noConfusion hd
    | some sl =>
      rw [hm] at hd
      simp only [Option.some.injEq] at hd
      subst hd
      have hfa := build_series_list_forall₂ hm
      rcases forall₂_exists_right hfa hmem with ⟨s, hsmem, hse⟩
      exact ⟨s, hsmem, create_series_entry_mem_fallback hse hf hbad⟩
  · by_cases hall : ∀ p ∈ series_dict, p.2 ≠ []
    · rw [(create_study_metadata_isSome meta study_id series_dict).mpr hall,
        (create_study_metadata_isSome meta' study_id series_dict).mpr hall]
    · have h1 : ¬(create_study_metadata meta study_id series_dict).isSome = true := by
        rw [create_study_metadata_isSome]; exact hall
      have h2 : ¬(create_study_metadata meta' study_id series_dict).isSome = true := by
        rw [create_study_metadata_isSome]; exact hall
      rw [Bool.not_eq_true] at h1 h2
      rw [h1, h2]

/-- Witness for C7 at a concrete one-file series whose header read
fails. -/
theorem bad_header_fallback_witness :
    (∀ d, create_study_metadata (fun _ _ _ => none) "1" [("2", ["f.dcm"])] = some d →
        ∃ s ∈ d.series, s.series_id = "2" ∧ (⟨"f.dcm", 0, 0⟩ : SFile) ∈ s.files) ∧
    (create_study_metadata (fun _ _ _ => none) "1" [("2", ["f.dcm"])]).isSome =
      (create_study_metadata (fun _ _ _ => some ⟨some 5, some 1, some "X"⟩) "1"
        [("2", ["f.dcm"])]).isSome :=
  bad_header_fallback (fun _ _ _ => none) (fun _ _ _ => some ⟨some 5, some 1, some "X"⟩)
    "1" [("2", ["f.dcm"])] "2" ["f.dcm"] "f.dcm" (by decide) (by decide) rfl

/-! ## Upload-path lemmas -/

theorem upload_series_loop_length (meta : LocalMetaOracle) (size : SizeOracle)
    (study_id series_id : Nat) (series_dir : String) :
    ∀ (fns : List String) (store : Finset String),
      (upload_series_loop meta size study_id series_id series_dir store fns).file_list.length
        = fns.length := by
  intro fns
  induction fns with
  | nil => intro store; rfl
  | cons f rest ih =>
    intro store
    simp only [upload_series_loop, List.length_cons]
    rw [ih]

theorem create_series_entry_count {meta : MetaOracle} {study_id series_id : String}
    {filenames : List String} {s : SSeries}
    (hs : create_series_entry meta study_id series_id filenames = some s) :
    s.slice_count = s.files.length := by
  unfold create_series_entry at hs
  cases h : sortFilenamesNumeric filenames with
  | nil => rw [h] at hs; exact Option.noConfusion hs
  | cons first rest =>
    rw [h] at hs
    simp only [Option.some.injEq] at hs
    subst hs
    simp only [List.length_map]
    have hl := (sortFilenamesNumeric_perm filenames).length_eq
    rw [h] at hl
    exact hl.symm

theorem upload_series_count {meta : LocalMetaOracle} {size : SizeOracle}
    {store : Finset String} {study_id series_id : Nat} {series_dir : String}
    {entries : List String} {si : USeries}
    (h : (upload_series meta size store study_id series_id series_dir entries).1 = some si) :
    si.slice_count = si.files.length := by
  unfold upload_series at h
  cases hd : dcmFilesOf entries with
  | nil => rw [hd] at h; exact Option.noConfusion h
  | cons first rest =>
    rw [hd] at h
    simp only [Option.some.injEq] at h
    subst h
    simp only
    rw [upload_series_loop_length]

theorem upload_fold_series_prop (meta : LocalMetaOracle) (size : SizeOracle)
    (root : String) (study_id : Nat) (P : USeries → Prop)
    (hP : ∀ (store : Finset String) (sd : Nat × List String) (si : USeries),
      (upload_series meta size store study_id sd.1
          (root ++ "/" ++ toString study_id ++ "/" ++ toString sd.1) sd.2).1 = some si →
        P si) :
    ∀ (dirs : List (Nat × List String)) (z : List USeries × Finset String),
      (∀ s ∈ z.1, P s) →
      ∀ s ∈ (dirs.foldl (upload_study_step meta size root study_id) z).1, P s := by
  intro dirs
  induction dirs with
  | nil => intro z hz; exact hz
  | cons sd rest ih =>
    intro z hz s hs
    rw [List.foldl_cons] at hs
    refine ih _ ?_ s hs
    intro t ht
    unfold upload_study_step at ht
    cases hres : upload_series meta size z.2 study_id sd.1
        (root ++ "/" ++ toString study_id ++ "/" ++ toString sd.1) sd.2 with
    | mk o store2 =>
      rw [hres] at ht
      cases o with
      | none => exact hz t ht
      | some si =>
        rcases List.mem_append.mp ht with ht' | ht'
        · exact hz t ht'
        · rw [List.mem_singleton.mp ht']
          exact hP z.2 sd si (by rw [hres])

/-! ## C9: document invariants on both paths -/

/-- C9: every study document built by the reconciliation path or the
ingestion path satisfies `total_series = len(series)`,
`total_slices = Σ slice_count`, and per-series
`slice_count = len(files)`. -/
theorem document_invariants :
    (∀ (meta : MetaOracle) (study_id : String)
        (series_dict : List (String × List String)) d,
        create_study_metadata meta study_id series_dict = some d →
          d.total_series = d.series.length ∧
          d.total_slices = (d.series.map (·.slice_count)).sum ∧
          ∀ s ∈ d.series, s.slice_count = s.files.length) ∧
    (∀ (meta : LocalMetaOracle) (size : SizeOracle) (store : Finset String)
        (root : String) (study_id : Nat) (series_dirs : List (Nat × List String)) d st,
        upload_study meta size store root study_id series_dirs = (some d, st) →
          d.total_series = d.series.length ∧
          d.total_slices = (d.series.map (·.slice_count)).sum ∧
          ∀ s ∈ d.series, s.slice_count = s.files.length) := by
  constructor
  · intro meta study_id series_dict d hd
    unfold create_study_metadata at hd
    cases hm : build_series_list meta study_id series_dict with
    | none => rw [hm] at hd; exact Option.noConfusion hd
    | some sl =>
      rw [hm] at hd
      simp only [Option.some.injEq] at hd
      subst hd
      refine ⟨rfl, rfl, ?_⟩
      intro s hs
      have hfa := build_series_list_forall₂ hm
      clear hm
      induction hfa with
      | nil => exact absurd hs (List.not_mem_nil s)
      | cons hr _ ih =>
        rcases List.mem_cons.mp hs with rfl | hs'
        · exact create_series_entry_count hr
        · exact ih hs'
  · intro meta size store root study_id series_dirs d st hd
    unfold upload_study at hd
    by_cases hne : series_dirs.isEmpty
    · rw [if_pos hne] at hd
      exact Option.noConfusion (congrArg Prod.fst hd)
    · rw [if_neg hne] at hd
      simp only [Prod.mk.injEq, Option.some.injEq] at hd
      obtain ⟨hd1, -⟩ := hd
      subst hd1
      refine ⟨rfl, rfl, ?_⟩
      exact upload_fold_series_prop meta size root study_id _
        (fun st' sd si h => upload_series_count h) _ ([], store) (by simp)

/-- Witness for C9 at concrete inputs on both paths. -/
theorem document_invariants_witness :
    ((create_study_metadata (fun _ _ _ => none) "1" [("2", ["f.dcm"])]).getD
          default).total_slices =
      (((create_study_metadata (fun _ _ _ => none) "1" [("2", ["f.dcm"])]).getD
          default).series.map (·.slice_count)).sum ∧
    ((upload_study (fun _ => none) (fun _ => 7) ∅ "local" 1 [(2, ["f.dcm"])]).1.getD
          default).total_series =
      ((upload_study (fun _ => none) (fun _ => 7) ∅ "local" 1
          [(2, ["f.dcm"])]).1.getD default).series.length :=
  ⟨(document_invariants.1 (fun _ _ _ => none) "1" [("2", ["f.dcm"])] _ rfl).2.1,
    (document_invariants.2 (fun _ => none) (fun _ => 7) ∅ "local" 1 [(2, ["f.dcm"])] _ _
        rfl).1⟩

/-! ## C8: skip-on-exists idempotence -/

theorem upload_series_loop_store_all (meta : LocalMetaOracle) (size : SizeOracle)
    (study_id series_id : Nat) (series_dir : String) :
    ∀ (fns : List String) (store : Finset String),
      (∀ fn ∈ fns, storagePathOf study_id series_id fn ∈ store) →
      (upload_series_loop meta size study_id series_id series_dir store fns).store
        = store := by
  intro fns
  induction fns with
  | nil => intro store _; rfl
  | cons f rest ih =>
    intro store h
    have hf := h f (List.mem_cons_self f rest)
    simp only [upload_series_loop, upload_dicom_file, if_pos hf]
    exact ih store (fun fn hfn => h fn (List.mem_cons_of_mem f hfn))

theorem upload_series_loop_counts (meta : LocalMetaOracle) (size : SizeOracle)
    (study_id series_id : Nat) (series_dir : String) :
    ∀ (fns : List String) (store : Finset String),
      (fns.map (storagePathOf study_id series_id)).Nodup →
      (upload_series_loop meta size study_id series_id series_dir store fns).uploaded_count
          = (fns.filter fun fn =>
              !(decide (storagePathOf study_id series_id fn ∈ store))).length ∧
      (upload_series_loop meta size study_id series_id series_dir store fns).skipped_count
          = (fns.filter fun fn =>
              decide (storagePathOf study_id series_id fn ∈ store)).length := by
  intro fns
  induction fns with
  | nil => intro store _; exact ⟨rfl, rfl⟩
  | cons f rest ih =>
    intro store hnd
    rw [List.map_cons, List.nodup_cons] at hnd
    obtain ⟨hf, hnd'⟩ := hnd
    by_cases hmem : storagePathOf study_id series_id f ∈ store
    · obtain ⟨ihu, ihs⟩ := ih store hnd'
      simp only [upload_series_loop, upload_dicom_file, if_pos hmem]
      constructor
      · rw [ihu]
        simp [hmem]
      · rw [ihs, List.filter_cons_of_pos (by simpa using hmem)]
        simp [Nat.add_comm]
    · have heq : ∀ fn ∈ rest,
          decide (storagePathOf study_id series_id fn ∈
              insert (storagePathOf study_id series_id f) store)
            = decide (storagePathOf study_id series_id fn ∈ store) := by
        intro fn hfn
        have hne : storagePathOf study_id series_id fn
            ≠ storagePathOf study_id series_id f := by
          intro hc
          exact hf (hc ▸ List.mem_map_of_mem _ hfn)
        simp [Finset.mem_insert, hne]
      obtain ⟨ihu, ihs⟩ :=
        ih (insert (storagePathOf study_id series_id f) store) hnd'
      rw [List.filter_congr (fun fn hfn => by rw [heq fn hfn])] at ihu
      rw [List.filter_congr (fun fn hfn => heq fn hfn)] at ihs
      simp only [upload_series_loop, upload_dicom_file, if_neg hmem]
      constructor
      · rw [ihu, List.filter_cons_of_pos (by simpa using hmem)]
        simp [Nat.add_comm]
      · rw [ihs]
        simp [hmem]

/-- C8: a file is uploaded exactly when no object exists at its
destination path, the per-series uploaded/skipped counts are the number
of destination paths absent/present in the store, and re-running against
a fully uploaded series uploads nothing, reports every file as skipped,
and leaves the object store unchanged. -/
theorem upload_skip_on_exists (meta : LocalMetaOracle) (size : SizeOracle)
    (store : Finset String) (study_id series_id : Nat) (series_dir : String)
    (entries : List String)
    (hnd : ((dcmFilesOf entries).map (storagePathOf study_id series_id)).Nodup) :
    (∀ storage_path, (upload_dicom_file store storage_path).2 = true ↔
        storage_path ∉ store) ∧
    (∀ si, (upload_series meta size store study_id series_id series_dir entries).1
          = some si →
        si.uploaded_count = ((dcmFilesOf entries).filter fun fn =>
            !(decide (storagePathOf study_id series_id fn ∈ store))).length ∧
        si.skipped_count = ((dcmFilesOf entries).filter fun fn =>
            decide (storagePathOf study_id series_id fn ∈ store)).length) ∧
    ((∀ fn ∈ dcmFilesOf entries, storagePathOf study_id series_id fn ∈ store) →
      (upload_series meta size store study_id series_id series_dir entries).2 = store ∧
      ∀ si, (upload_series meta size store study_id series_id series_dir entries).1
          = some si →
        si.uploaded_count = 0 ∧ si.skipped_count = si.slice_count) := by
  refine ⟨?_, ?_, ?_⟩
  · intro storage_path
    unfold upload_dicom_file
    by_cases hp : storage_path ∈ store
    · simp [hp]
    · simp [hp]
  · intro si hsi
    unfold upload_series at hsi
    cases hd : dcmFilesOf entries with
    | nil => rw [hd] at hsi; exact Option.noConfusion hsi
    | cons first rest =>
      rw [hd] at hsi
      simp only [Option.some.injEq] at hsi
      subst hsi
      rw [hd] at hnd
      exact upload_series_loop_counts meta size study_id series_id series_dir
        (first :: rest) store hnd
  · intro hall
    constructor
    · unfold upload_series
      cases hd : dcmFilesOf entries with
      | nil => rfl
      | cons first rest =>
        rw [hd] at hall
        exact upload_series_loop_store_all meta size study_id series_id series_dir
          (first :: rest) store hall
    · intro si hsi
      unfold upload_series at hsi
      cases hd : dcmFilesOf entries with
      | nil => rw [hd] at hsi; exact Option.noConfusion hsi
      | cons first rest =>
        rw [hd] at hsi
        simp only [Option.some.injEq] at hsi
        subst hsi
        rw [hd] at hnd hall
        obtain ⟨hu, hs⟩ := upload_series_loop_counts meta size study_id series_id
          series_dir (first :: rest) store hnd
        constructor
        · rw [hu, List.length_eq_zero]
          apply List.filter_eq_nil_iff.mpr
          intro fn hfn
          simp [hall fn hfn]
        · rw [hs]
          have : (first :: rest).filter (fun fn =>
              decide (storagePathOf study_id series_id fn ∈ store)) = first :: rest := by
            apply List.filter_eq_self.mpr
            intro fn hfn
            simpa using hall fn hfn
          rw [this]

/-- Witness for C8 at a concrete one-file series that is already fully
uploaded. -/
theorem upload_skip_on_exists_witness :
    (upload_series (fun _ => none) (fun _ => 9) {storagePathOf 1 2 "a.dcm"} 1 2
        "local/1/2" ["a.dcm"]).2 = {storagePathOf 1 2 "a.dcm"} ∧
    ((upload_series (fun _ => none) (fun _ => 9) {storagePathOf 1 2 "a.dcm"} 1 2
        "local/1/2" ["a.dcm"]).1.getD default).uploaded_count = 0 := by
  have h := upload_skip_on_exists (fun _ => none) (fun _ => 9)
    {storagePathOf 1 2 "a.dcm"} 1 2 "local/1/2" ["a.dcm"] (by decide)
  have h2 := h.2.2 (by decide)
  exact ⟨h2.1, (h2.2 _ rfl).1⟩

/-! ## C10: the storage snapshot is non-degenerate -/

theorem ScanInv.mono {bs bs' : List String} {studies : StorageSnap}
    (h : ScanInv bs studies) (hsub : ∀ b ∈ bs, b ∈ bs') : ScanInv bs' studies := by
  intro p hp
  obtain ⟨h1, h2⟩ := h p hp
  refine ⟨h1, fun q hq => ?_⟩
  obtain ⟨h3, h4⟩ := h2 q hq
  refine ⟨h3, fun fn hfn => ?_⟩
  obtain ⟨h5, bb, hbb, root, hsp⟩ := h4 fn hfn
  exact ⟨h5, bb, hsub bb hbb, root, hsp⟩

theorem ScanInv.series {bs : List String} {studies : StorageSnap}
    (h : ScanInv bs studies) (study : String) :
    ∀ q ∈ (dictLookup studies study).getD [], q.2 ≠ [] ∧
      ∀ fn ∈ q.2, strEndsWith fn ".dcm" = true ∧
        ∃ b ∈ bs, ∃ root, pySplit b '/' = [root, study, q.1, fn] := by
  intro q hq
  cases hl : dictLookup studies study with
  | none => rw [hl] at hq; simp at hq
  | some smap =>
    rw [hl] at hq
    exact (h _ (dictLookup_mem hl)).2 q hq

theorem ScanInv.files {bs : List String} {studies : StorageSnap}
    (h : ScanInv bs studies) (study series : String) :
    ∀ fn ∈ (dictLookup ((dictLookup studies study).getD []) series).getD [],
      strEndsWith fn ".dcm" = true ∧
        ∃ b ∈ bs, ∃ root, pySplit b '/' = [root, study, series, fn] := by
  intro fn hfn
  cases hl : dictLookup ((dictLookup studies study).getD []) series with
  | none => rw [hl] at hfn; simp at hfn
  | some files =>
    rw [hl] at hfn
    exact (h.series study _ (dictLookup_mem hl)).2 fn hfn

theorem scan_blob_step_inv {bs : List String} {studies : StorageSnap} {b : String}
    (h : ScanInv bs studies) : ScanInv (bs ++ [b]) (scan_blob_step studies b) := by
  have hmono : ScanInv (bs ++ [b]) studies :=
    h.mono fun x hx => List.mem_append_left _ hx
  unfold scan_blob_step
  split
  · rename_i root study series filename heq
    split
    · rename_i hdcm
      intro p hp
      rcases mem_dictInsert hp with hps | ⟨hpm, -⟩
      · subst hps
        refine ⟨dictInsert_ne_nil _ _ _, ?_⟩
        intro q hq
        rcases mem_dictInsert hq with hqs | ⟨hqm, -⟩
        · subst hqs
          refine ⟨by simp, ?_⟩
          intro fn hfn
          rcases List.mem_append.mp hfn with hfo | hfo
          · exact hmono.files study series fn hfo
          · rw [List.mem_singleton.mp hfo]
            exact ⟨hdcm, b, List.mem_append_right _ (List.mem_singleton_self b), root, heq⟩
        · exact hmono.series study q hqm
      · exact hmono p hpm
    · exact hmono
  · exact hmono

theorem scan_fold_inv :
    ∀ (blobs bs : List String) (studies : StorageSnap),
      ScanInv bs studies → ScanInv (bs ++ blobs) (blobs.foldl scan_blob_step studies) := by
  intro blobs
  induction blobs with
  | nil => intro bs studies h; simpa using h
  | cons b rest ih =>
    intro bs studies h
    rw [List.foldl_cons]
    have hr := ih (bs ++ [b]) _ (scan_blob_step_inv h)
    rw [List.append_assoc] at hr
    simpa using hr

/-- C10: every study in a storage snapshot has at least one series; every
series has a non-empty filename list; every filename ends in `.dcm` and
comes from a blob path with exactly 4 segments; consequently the Metadata
Builder always succeeds (in particular it is never handed an empty series
map) on any study of the snapshot. -/
theorem storage_snapshot_nondegenerate (blobs : List String) (study : String)
    (smap : SeriesMap) (hmem : (study, smap) ∈ get_storage_studies blobs) :
    smap ≠ [] ∧
    (∀ q ∈ smap, q.2 ≠ [] ∧ ∀ fn ∈ q.2,
        strEndsWith fn ".dcm" = true ∧
        ∃ b ∈ blobs, ∃ root, pySplit b '/' = [root, study, q.1, fn]) ∧
    ∀ meta : MetaOracle, (create_study_metadata meta study smap).isSome = true := by
  have h0 : ScanInv ([] : List String) ([] : StorageSnap) := by
    intro p hp
    exact absurd hp (List.not_mem_nil p)
  have h := scan_fold_inv blobs [] [] h0
  rw [List.nil_append] at h
  obtain ⟨h1, h2⟩ := h (study, smap) hmem
  refine ⟨h1, h2, ?_⟩
  intro meta
  rw [create_study_metadata_isSome]
  intro p hp
  exact (h2 p hp).1

/-- Witness for C10 on a concrete blob listing. -/
theorem storage_snapshot_nondegenerate_witness :
    ([("1", ["f1.dcm"])] : SeriesMap) ≠ [] ∧
    (create_study_metadata (fun _ _ _ => none) "A" [("1", ["f1.dcm"])]).isSome = true :=
  have h := storage_snapshot_nondegenerate ["dicoms/A/1/f1.dcm"] "A"
    [("1", ["f1.dcm"])] (by decide)
  ⟨h.1, h.2.2 (fun _ _ _ => none)⟩

/-! ## C3: the two metadata builders compared -/

theorem create_series_entry_slice {meta : MetaOracle} {study_id series_id : String}
    {filenames : List String} {s : SSeries}
    (hs : create_series_entry meta study_id series_id filenames = some s) :
    s.slice_count = filenames.length := by
  unfold create_series_entry at hs
  cases h : sortFilenamesNumeric filenames with
  | nil => rw [h] at hs; exact Option.noConfusion hs
  | cons first rest =>
    rw [h] at hs
    simp only [Option.some.injEq] at hs
    subst hs
    rfl

theorem build_series_list_stats {meta : MetaOracle} {study_id : String}
    {sd : List (String × List String)} {sl : List SSeries}
    (h : build_series_list meta study_id sd = some sl) :
    sl.length = sd.length ∧
      (sl.map (·.slice_count)).sum = (sd.map fun p => p.2.length).sum := by
  have hfa := build_series_list_forall₂ h
  clear h
  induction hfa with
  | nil => exact ⟨rfl, rfl⟩
  | cons hr hrest ih =>
    obtain ⟨ih1, ih2⟩ := ih
    constructor
    · simp [ih1]
    · simp only [List.map_cons, List.sum_cons, ih2, create_series_entry_slice hr]

theorem dcmFilesOf_perm_of_all {l : List String}
    (hall : ∀ fn ∈ l, strEndsWith fn ".dcm" = true) :
    List.Perm (dcmFilesOf l) l := by
  unfold dcmFilesOf
  rw [List.filter_eq_self.mpr hall]
  exact List.perm_insertionSort _ l

theorem dcmFilesOf_ne_nil {l : List String} (hne : l ≠ [])
    (hall : ∀ fn ∈ l, strEndsWith fn ".dcm" = true) : dcmFilesOf l ≠ [] := by
  intro hc
  have hp := dcmFilesOf_perm_of_all hall
  rw [hc] at hp
  exact hne hp.nil_eq.symm

theorem upload_study_step_some (meta : LocalMetaOracle) (size : SizeOracle)
    (root : String) (study_id : Nat) (z : List USeries × Finset String)
    (sd : Nat × List String) (h : dcmFilesOf sd.2 ≠ []) :
    ∃ si st2, upload_study_step meta size root study_id z sd = (z.1 ++ [si], st2) ∧
      si.slice_count = (dcmFilesOf sd.2).length ∧ si.series_id = sd.1 := by
  unfold upload_study_step upload_series
  cases hd : dcmFilesOf sd.2 with
  | nil => exact absurd hd h
  | cons first rest => exact ⟨_, _, rfl, rfl, rfl⟩

theorem upload_fold_stats (meta : LocalMetaOracle) (size : SizeOracle) (root : String)
    (study_id : Nat) :
    ∀ (dirs : List (Nat × List String)) (z : List USeries × Finset String),
      (∀ p ∈ dirs, dcmFilesOf p.2 ≠ []) →
      (dirs.foldl (upload_study_step meta size root study_id) z).1.length
          = z.1.length + dirs.length ∧
        ((dirs.foldl (upload_study_step meta size root study_id) z).1.map
            (·.slice_count)).sum
          = (z.1.map (·.slice_count)).sum
            + (dirs.map fun p => (dcmFilesOf p.2).length).sum := by
  intro dirs
  induction dirs with
  | nil => intro z _; exact ⟨by simp, by simp⟩
  | cons sd rest ih =>
    intro z hall
    rw [List.foldl_cons]
    obtain ⟨si, st2, hstep, hslice, -⟩ := upload_study_step_some meta size root study_id
      z sd (hall sd (List.mem_cons_self _ _))
    rw [hstep]
    obtain ⟨ih1, ih2⟩ := ih (z.1 ++ [si], st2)
      (fun p hp => hall p (List.mem_cons_of_mem _ hp))
    have e1 : ((z.1 ++ [si], st2) : List USeries × Finset String).1 = z.1 ++ [si] := rfl
    rw [e1] at ih1 ih2
    constructor
    · rw [ih1]
      simp only [List.length_append, List.length_singleton, List.length_cons,
        List.length_nil]
      omega
    · rw [ih2]
      simp only [List.map_append, List.map_cons, List.map_nil, List.sum_append,
        List.sum_cons, List.sum_nil, hslice]
      omega

theorem create_series_entry_id {meta : MetaOracle} {study_id series_id : String}
    {filenames : List String} {s : SSeries}
    (hs : create_series_entry meta study_id series_id filenames = some s) :
    s.series_id = series_id := by
  unfold create_series_entry at hs
  cases h : sortFilenamesNumeric filenames with
  | nil => rw [h] at hs; exact Option.noConfusion hs
  | cons first rest =>
    rw [h] at hs
    simp only [Option.some.injEq] at hs
    subst hs
    rfl

theorem create_study_metadata_series_mem {meta : MetaOracle} {study_id : String}
    {sd : List (String × List String)} {d : SyncDoc}
    (hd : create_study_metadata meta study_id sd = some d) :
    ∀ p ∈ sd, ∃ s ∈ d.series, s.series_id = p.1 ∧ s.slice_count = p.2.length := by
  intro p hp
  unfold create_study_metadata at hd
  cases hb : build_series_list meta study_id sd with
  | none => rw [hb] at hd; exact Option.noConfusion hd
  | some sl =>
    rw [hb] at hd
    simp only [Option.some.injEq] at hd
    subst hd
    obtain ⟨s, hsmem, hse⟩ := forall₂_exists_right (build_series_list_forall₂ hb) hp
    exact ⟨s, hsmem, create_series_entry_id hse, create_series_entry_slice hse⟩

theorem upload_fold_mem_mono (meta : LocalMetaOracle) (size : SizeOracle) (root : String)
    (study_id : Nat) :
    ∀ (dirs : List (Nat × List String)) (z : List USeries × Finset String) (s : USeries),
      s ∈ z.1 → s ∈ (dirs.foldl (upload_study_step meta size root study_id) z).1 := by
  intro dirs
  induction dirs with
  | nil => intro z s hs; exact hs
  | cons sd rest ih =>
    intro z s hs
    rw [List.foldl_cons]
    apply ih
    unfold upload_study_step
    cases upload_series meta size z.2 study_id sd.1
        (root ++ "/" ++ toString study_id ++ "/" ++ toString sd.1) sd.2 with
    | mk o st2 =>
      cases o with
      | none => exact hs
      | some si => exact List.mem_append_left _ hs

theorem upload_fold_mem (meta : LocalMetaOracle) (size : SizeOracle) (root : String)
    (study_id : Nat) :
    ∀ (dirs : List (Nat × List String)) (z : List USeries × Finset String),
      ∀ p ∈ dirs, dcmFilesOf p.2 ≠ [] →
        ∃ s ∈ (dirs.foldl (upload_study_step meta size root study_id) z).1,
          s.series_id = p.1 ∧ s.slice_count = (dcmFilesOf p.2).length := by
  intro dirs
  induction dirs with
  | nil => intro z p hp; exact absurd hp (List.not_mem_nil p)
  | cons sd rest ih =>
    intro z p hp hdcm
    rw [List.foldl_cons]
    rcases List.mem_cons.mp hp with rfl | hp'
    · obtain ⟨si, st2, hstep, hslice, hsid⟩ :=
        upload_study_step_some meta size root study_id z p hdcm
      rw [hstep]
      refine ⟨si, ?_, hsid, hslice⟩
      exact upload_fold_mem_mono meta size root study_id rest (z.1 ++ [si], st2) si
        (List.mem_append_right _ (List.mem_singleton_self si))
    · exact ih (upload_study_step meta size root study_id z sd) p hp' hdcm

/-- C3 counterexample: same study (1), same single series (2), same
single file `f.dcm` whose bytes fail to parse on both sides — yet the
two paths build different document bodies.  The sync path stores
`study_id` as the string "1", description fallback `''` and bare
per-file dicts; the ingestion path stores `study_id` as the int 1,
description fallback `'Unknown'`, lexicographically ordered files, and
extra `storage_path`/`file_size`/`uploaded_count`/`skipped_count`
fields. -/
theorem metadata_paths_differ_cex :
    create_study_metadata (fun _ _ _ => none) "1" [("2", ["f.dcm"])] =
      some ⟨"1", [⟨"2", "", 1, [⟨"f.dcm", 0, 0⟩], "dicoms/1/2/"⟩], 1, 1, "ready"⟩ ∧
    (upload_study (fun _ => none) (fun _ => 7) ∅ "local" 1 [(2, ["f.dcm"])]).1 =
      some ⟨1, [⟨2, "Unknown", 1, [⟨"f.dcm", "dicoms/1/2/f.dcm", 0, 0, 7⟩],
        "dicoms/1/2/", 1, 0⟩], 1, 1, "ready"⟩ ∧
    docJsonSync ⟨"1", [⟨"2", "", 1, [⟨"f.dcm", 0, 0⟩], "dicoms/1/2/"⟩], 1, 1, "ready"⟩ ≠
      docJsonUpload ⟨1, [⟨2, "Unknown", 1, [⟨"f.dcm", "dicoms/1/2/f.dcm", 0, 0, 7⟩],
        "dicoms/1/2/", 1, 0⟩], 1, 1, "ready"⟩ := by
  refine ⟨by decide, by decide, ?_⟩
  intro hc
  simp [docJsonSync, docJsonUpload, seriesJsonSync, seriesJsonUpload, fileJsonSync,
    fileJsonUpload] at hc

/-- C3 (amended): on aligned inputs — the same study, the same series
ids with the same non-empty, all-`.dcm` filename lists — the two paths
agree on `total_series`, `total_slices` and `status`, and the sync
path's `study_id` is the decimal rendering of the ingestion path's; the
full bodies nevertheless differ in general (description fallback, file
order, id types, per-file fields), as the counterexample shows. -/
theorem metadata_paths_counts_agree (metaS : MetaOracle) (metaU : LocalMetaOracle)
    (size : SizeOracle) (store : Finset String) (root : String) (study_id : Nat)
    (series_dirs : List (Nat × List String))
    (hne : series_dirs ≠ [])
    (hfile : ∀ p ∈ series_dirs, p.2 ≠ [] ∧ ∀ fn ∈ p.2, strEndsWith fn ".dcm" = true) :
    ∃ d1 d2 st,
      create_study_metadata metaS (toString study_id)
          (series_dirs.map fun p => (toString p.1, p.2)) = some d1 ∧
      upload_study metaU size store root study_id series_dirs = (some d2, st) ∧
      d1.total_series = d2.total_series ∧ d1.total_slices = d2.total_slices ∧
      d1.status = d2.status ∧ d1.study_id = toString d2.study_id ∧
      ∀ p ∈ series_dirs,
        (∃ s1 ∈ d1.series, s1.series_id = toString p.1 ∧
            s1.slice_count = p.2.length) ∧
        ∃ s2 ∈ d2.series, s2.series_id = p.1 ∧ s2.slice_count = p.2.length := by
  have hsync : (create_study_metadata metaS (toString study_id)
      (series_dirs.map fun p => (toString p.1, p.2))).isSome = true := by
    rw [create_study_metadata_isSome]
    intro p hp
    rcases List.mem_map.mp hp with ⟨q, hq, rfl⟩
    exact (hfile q hq).1
  obtain ⟨d1, hd1⟩ := Option.isSome_iff_exists.mp hsync
  have hstats : d1.total_series = series_dirs.length ∧
      d1.total_slices = (series_dirs.map fun p => p.2.length).sum ∧
      d1.status = "ready" ∧ d1.study_id = toString study_id := by
    unfold create_study_metadata at hd1
    cases hb : build_series_list metaS (toString study_id)
        (series_dirs.map fun p => (toString p.1, p.2)) with
    | none => rw [hb] at hd1; exact Option.noConfusion hd1
    | some sl =>
      rw [hb] at hd1
      simp only [Option.some.injEq] at hd1
      subst hd1
      obtain ⟨hlen, hsum⟩ := build_series_list_stats hb
      refine ⟨by simpa using hlen, ?_, rfl, rfl⟩
      simp only
      rw [hsum, List.map_map]
      rfl
  have hup : ∀ p ∈ series_dirs.insertionSort (fun a b => toString a.1 ≤ toString b.1),
      dcmFilesOf p.2 ≠ [] := by
    intro p hp
    have hp' : p ∈ series_dirs := (List.perm_insertionSort _ _).mem_iff.mp hp
    exact dcmFilesOf_ne_nil (hfile p hp').1 (hfile p hp').2
  obtain ⟨hlen2, hsum2⟩ := upload_fold_stats metaU size root study_id
    (series_dirs.insertionSort (fun a b => toString a.1 ≤ toString b.1)) ([], store) hup
  unfold upload_study
  rw [if_neg (by simpa [List.isEmpty_iff] using hne)]
  refine ⟨d1, _, _, hd1, rfl, ?_, ?_, ?_, ?_, ?_⟩
  · simp only
    rw [hlen2, List.length_insertionSort, hstats.1]
    simp
  · simp only
    rw [hsum2, hstats.2.1]
    have hcong : (series_dirs.insertionSort (fun a b => toString a.1 ≤ toString b.1)).map
          (fun p => (dcmFilesOf p.2).length)
        = (series_dirs.insertionSort (fun a b => toString a.1 ≤ toString b.1)).map
          (fun p => p.2.length) := by
      apply List.map_congr_left
      intro p hp
      have hp' : p ∈ series_dirs := (List.perm_insertionSort _ _).mem_iff.mp hp
      exact (dcmFilesOf_perm_of_all (hfile p hp').2).length_eq
    rw [hcong]
    have hperm : List.Perm
        ((series_dirs.insertionSort (fun a b => toString a.1 ≤ toString b.1)).map
          (fun p => p.2.length))
        (series_dirs.map fun p => p.2.length) :=
      (List.perm_insertionSort _ _).map _
    rw [hperm.sum_eq]
    simp
  · exact hstats.2.2.1
  · exact hstats.2.2.2
  · intro p hp
    constructor
    · exact create_study_metadata_series_mem hd1 (toString p.1, p.2)
        (List.mem_map_of_mem _ hp)
    · have hp2 : p ∈ series_dirs.insertionSort (fun a b => toString a.1 ≤ toString b.1) :=
        (List.perm_insertionSort _ _).mem_iff.mpr hp
      obtain ⟨s2, hs2mem, hsid, hslice⟩ := upload_fold_mem metaU size root study_id
        (series_dirs.insertionSort (fun a b => toString a.1 ≤ toString b.1)) ([], store)
        p hp2 (dcmFilesOf_ne_nil (hfile p hp).1 (hfile p hp).2)
      refine ⟨s2, hs2mem, hsid, ?_⟩
      rw [hslice]
      exact (dcmFilesOf_perm_of_all (hfile p hp).2).length_eq

/-- Witness for C3's amended claim at a concrete aligned input. -/
theorem metadata_paths_counts_agree_witness :
    ((create_study_metadata (fun _ _ _ => none) (toString (1 : Nat))
        ([((2 : Nat), ["f.dcm"])].map fun p => (toString p.1, p.2))).getD
        default).total_slices =
      ((upload_study (fun _ => none) (fun _ => 7) ∅ "local" 1
          [(2, ["f.dcm"])]).1.getD default).total_slices := by
  obtain ⟨d1, d2, st, h1, h2, h3, h4, h5, h6, h7⟩ :=
    metadata_paths_counts_agree (fun _ _ _ => none) (fun _ => none) (fun _ => 7) ∅
      "local" 1 [(2, ["f.dcm"])] (by decide) (by decide)
  rw [h1, h2]
  exact h4

/-! ## C2: the key set after applying the plan -/

theorem contains_eq_mem (l : List String) (k : String) :
    l.contains k = true ↔ k ∈ l := by
  rw [List.contains_iff_exists_mem_beq]
  constructor
  · rintro ⟨a, ha, hbeq⟩
    rwa [beq_iff_eq.mp hbeq]
  · intro hk
    exact ⟨k, hk, beq_self_eq_true k⟩

theorem fsKeys_fs_delete (fs : Firestore) (k : String) :
    fsKeys (fs_delete fs k) = fsKeys fs \ {k} := by
  ext x
  simp only [fsKeys, fs_delete, List.mem_toFinset, List.mem_map, List.mem_filter,
    Finset.mem_sdiff, Finset.mem_singleton]
  constructor
  · rintro ⟨p, ⟨hp, hpk⟩, rfl⟩
    refine ⟨⟨p, hp, rfl⟩, ?_⟩
    simpa using hpk
  · rintro ⟨⟨p, hp, rfl⟩, hx⟩
    refine ⟨p, ⟨hp, ?_⟩, rfl⟩
    simpa using hx

theorem fsKeys_fs_set (fs : Firestore) (k : String) (d : SyncDoc) :
    fsKeys (fs_set fs k d) = insert k (fsKeys fs) :=
  keys_dictInsert fs k d

theorem dictLookup_doc_id_self {snap : List (String × FsEntry)} {k : String}
    (hall : ∀ q ∈ snap, q.2.doc_id = q.1) (hmem : k ∈ snap.map Prod.fst) :
    ((dictLookup snap k).getD default).doc_id = k := by
  cases hl : dictLookup snap k with
  | none =>
    exfalso
    rcases List.mem_map.mp hmem with ⟨q, hq, hqk⟩
    unfold dictLookup at hl
    rw [Option.map_eq_none'] at hl
    have hq' := List.find?_eq_none.mp hl q hq
    simp only [beq_iff_eq] at hq'
    exact hq' hqk
  | some e =>
    have hm := dictLookup_mem hl
    simpa using hall (k, e) hm

theorem orphan_delete_fold_keys {snap : List (String × FsEntry)}
    (hall : ∀ q ∈ snap, q.2.doc_id = q.1) :
    ∀ (ids : List String) (fs : Firestore), (∀ k ∈ ids, k ∈ snap.map Prod.fst) →
      fsKeys (orphan_delete_fold snap ids fs) = fsKeys fs \ ids.toFinset := by
  intro ids
  induction ids with
  | nil => intro fs _; simp [orphan_delete_fold]
  | cons a rest ih =>
    intro fs hids
    unfold orphan_delete_fold
    rw [List.foldl_cons]
    have hrest := ih (fs_delete fs ((dictLookup snap a).getD default).doc_id)
      (fun k hk => hids k (List.mem_cons_of_mem _ hk))
    unfold orphan_delete_fold at hrest
    rw [hrest, fsKeys_fs_delete,
      dictLookup_doc_id_self hall (hids a (List.mem_cons_self _ _))]
    ext x
    simp only [Finset.mem_sdiff, Finset.mem_singleton, List.toFinset_cons,
      Finset.mem_insert]
    tauto

theorem apply_creates_keys {meta : MetaOracle} {storage_studies : StorageSnap}
    (hser : ∀ p ∈ storage_studies, ∀ q ∈ p.2, q.2 ≠ []) :
    ∀ (ids : List String) (fs : Firestore),
      ∃ fs', apply_creates meta storage_studies ids fs = some fs' ∧
        fsKeys fs' = fsKeys fs ∪ ids.toFinset := by
  intro ids
  induction ids with
  | nil => intro fs; exact ⟨fs, rfl, by simp⟩
  | cons a rest ih =>
    intro fs
    have hsucc : (create_study_metadata meta a
        ((dictLookup storage_studies a).getD [])).isSome = true := by
      rw [create_study_metadata_isSome]
      intro p hp
      cases hl : dictLookup storage_studies a with
      | none => rw [hl] at hp; simp at hp
      | some smap =>
        rw [hl] at hp
        exact hser _ (dictLookup_mem hl) p hp
    obtain ⟨d, hd⟩ := Option.isSome_iff_exists.mp hsucc
    obtain ⟨fs', hfs', hkeys⟩ := ih (fs_set fs a d)
    refine ⟨fs', ?_, ?_⟩
    · show (match create_study_metadata meta a
          ((dictLookup storage_studies a).getD []) with
        | none => none
        | some metadata =>
            apply_creates meta storage_studies rest (fs_set fs a metadata)) = some fs'
      rw [hd]
      exact hfs'
    · rw [hkeys, fsKeys_fs_set]
      ext x
      simp only [Finset.mem_union, Finset.mem_insert, List.toFinset_cons]
      tauto

theorem get_firestore_studies_id {fs : Firestore}
    (hid : ∀ p ∈ fs, p.2.study_id = p.1) (hnd : (fs.map Prod.fst).Nodup) :
    get_firestore_studies fs = fs.map fun p => (p.1, FsEntry.mk p.1 p.2) := by
  have haux : ∀ (l : List (String × SyncDoc)) (acc : List (String × FsEntry)),
      (∀ p ∈ l, p.2.study_id = p.1) → (l.map Prod.fst).Nodup →
      (∀ p ∈ l, ∀ q ∈ acc, q.1 ≠ p.1) →
      l.foldl (fun acc2 kd => dictInsert acc2 kd.2.study_id ⟨kd.1, kd.2⟩) acc
        = acc ++ l.map fun p => (p.1, FsEntry.mk p.1 p.2) := by
    intro l
    induction l with
    | nil => intro acc _ _ _; simp
    | cons a rest ih =>
      intro acc hidl hndl hdisj
      rw [List.foldl_cons]
      have ha : a.2.study_id = a.1 := hidl a (List.mem_cons_self _ _)
      rw [ha, dictInsert_of_not_mem _
        (fun q hq => hdisj a (List.mem_cons_self _ _) q hq)]
      rw [List.map_cons, List.nodup_cons] at hndl
      have hdisj2 : ∀ p ∈ rest, ∀ q ∈ acc ++ [(a.1, (⟨a.1, a.2⟩ : FsEntry))],
          q.1 ≠ p.1 := by
        intro p hp q hq
        rcases List.mem_append.mp hq with hq' | hq'
        · exact hdisj p (List.mem_cons_of_mem _ hp) q hq'
        · rw [List.mem_singleton.mp hq']
          intro hc
          simp only at hc
          exact hndl.1 (hc ▸ List.mem_map_of_mem Prod.fst hp)
      rw [ih (acc ++ [(a.1, FsEntry.mk a.1 a.2)])
        (fun p hp => hidl p (List.mem_cons_of_mem _ hp)) hndl.2 hdisj2]
      simp
  have h0 := haux fs [] hid hnd
    (by intro p _ q hq; exact absurd hq (List.not_mem_nil q))
  simpa [get_firestore_studies] using h0

/-- C2 counterexample: an existing study whose stored document key ("X")
differs from its embedded study_id ("A") is updated at key
`str(study_id)` = "A", so the stale document at key "X" survives and the
final key set {"X","A"} is not keys(S) = {"A"}. -/
theorem apply_sync_stale_doc_key_cex :
    (apply_sync (fun _ _ _ => none) [("A", [("1", ["f1.dcm"])])]
        [("X", ⟨"A", [], 0, 0, "ready"⟩)]).isSome = true ∧
    fsKeys ((apply_sync (fun _ _ _ => none) [("A", [("1", ["f1.dcm"])])]
        [("X", ⟨"A", [], 0, 0, "ready"⟩)]).getD []) ≠
      snapKeys [("A", [("1", ["f1.dcm"])])] := by
  constructor <;> decide

/-- C2 (amended): provided every catalog document's embedded `study_id`
equals its document key (true of every document this tool itself
writes), document keys are unique, and every series in the storage
snapshot has at least one file, applying the plan succeeds and yields a
catalog whose document-key set equals keys(S) exactly.  Without the
document-key proviso a stale document under a different key survives the
update, as the counterexample shows. -/
theorem apply_sync_key_set_amended (meta : MetaOracle) (storage_studies : StorageSnap)
    (fs : Firestore)
    (hid : ∀ p ∈ fs, p.2.study_id = p.1)
    (hnd : (fs.map Prod.fst).Nodup)
    (hser : ∀ p ∈ storage_studies, ∀ q ∈ p.2, q.2 ≠ []) :
    ∃ fs', apply_sync meta storage_studies fs = some fs' ∧
      fsKeys fs' = snapKeys storage_studies := by
  have hsnap := get_firestore_studies_id hid hnd
  simp only [apply_sync]
  rw [hsnap]
  have hmk : ((fs.map fun p => (p.1, FsEntry.mk p.1 p.2)).map Prod.fst)
      = fs.map Prod.fst := by
    rw [List.map_map]
    rfl
  rw [hmk]
  have hall : ∀ q ∈ fs.map fun p => (p.1, FsEntry.mk p.1 p.2), q.2.doc_id = q.1 := by
    intro q hq
    rcases List.mem_map.mp hq with ⟨p, hp, rfl⟩
    rfl
  have hdelkeys := orphan_delete_fold_keys hall
    ((fs.map Prod.fst).filter fun k => !((storage_studies.map Prod.fst).contains k)) fs
    (fun k hk => by
      rw [hmk]
      exact (List.mem_filter.mp hk).1)
  obtain ⟨fs2, hfs2, hkeys2⟩ := apply_creates_keys hser
    ((storage_studies.map Prod.fst).filter fun k => !((fs.map Prod.fst).contains k))
    (orphan_delete_fold (fs.map fun p => (p.1, FsEntry.mk p.1 p.2))
      ((fs.map Prod.fst).filter fun k => !((storage_studies.map Prod.fst).contains k)) fs)
  obtain ⟨fs3, hfs3, hkeys3⟩ := apply_creates_keys hser
    ((storage_studies.map Prod.fst).filter fun k => (fs.map Prod.fst).contains k) fs2
  refine ⟨fs3, ?_, ?_⟩
  · rw [hfs2]
    simpa using hfs3
  · rw [hkeys3, hkeys2, hdelkeys]
    ext x
    simp only [fsKeys, snapKeys, Finset.mem_union, Finset.mem_sdiff, List.mem_toFinset,
      List.mem_filter, Bool.not_eq_eq_eq_not, Bool.not_true, contains_eq_mem,
      Bool.not_eq_true]
    by_cases hxs : x ∈ storage_studies.map Prod.fst <;>
      by_cases hxf : x ∈ fs.map Prod.fst <;>
      simp [hxs, hxf, contains_eq_mem]

/-- Witness for C2's amended claim: catalog {"A" (existing, key = id),
"B" (orphan)}, storage {"A"} — the final key set is exactly {"A"}. -/
theorem apply_sync_key_set_amended_witness :
    fsKeys ((apply_sync (fun _ _ _ => none) [("A", [("1", ["f1.dcm"])])]
        [("A", ⟨"A", [], 0, 0, "ready"⟩), ("B", ⟨"B", [], 0, 0, "ready"⟩)]).getD []) =
      snapKeys [("A", [("1", ["f1.dcm"])])] := by
  obtain ⟨fs', h1, h2⟩ := apply_sync_key_set_amended (fun _ _ _ => none)
    [("A", [("1", ["f1.dcm"])])]
    [("A", ⟨"A", [], 0, 0, "ready"⟩), ("B", ⟨"B", [], 0, 0, "ready"⟩)]
    (by decide) (by decide) (by decide)
  rw [h1]
  exact h2

end Lstv

